import Mathlib

/-!
Verification of the WBCategoryParser catalog-crawl pipeline (`src/main.py`)
against its natural-language specification.

The JSON values flowing through the pipeline are modelled by the inductive
type `Json`.  Python dictionary/string/integer operations used by the source
are modelled by `py*` helpers; fallible Python code (subscripting, `int()`,
JSON decoding, HTTP) is modelled with `Except String`, the error string
standing for `str(exception)`.  I/O boundaries (the HTTP client, `json.loads`)
are injected as parameters, exactly where the source receives them from its
environment.
-/

/-- A parsed JSON value.  Numbers are modelled as integers: every numeric
field of the catalog schema (`id`, levels, subject ids) is integral. -/
inductive Json where
  | null
  | bool (b : Bool)
  | num (n : Int)
  | str (s : String)
  | arr (elems : List Json)
  | obj (fields : List (String × Json))
deriving Repr

/-- Python truthiness of a parsed JSON value (`bool(x)`). -/
def Json.truthy : Json → Bool
  | .null => false
  | .bool b => b
  | .num n => n != 0
  | .str s => s != ""
  | .arr l => !l.isEmpty
  | .obj f => !f.isEmpty

/-- Python `d.get(k)` / `d.get(k, default)` (with `Option` for the default):
first matching key of the dictionary.  Python raises `AttributeError` when
`.get` is called on a non-dict; non-dict nodes are outside the menu schema
and are modelled as having no keys. -/
def Json.get? (j : Json) (k : String) : Option Json :=
  match j with
  | .obj fields => (fields.find? (fun kv => kv.1 == k)).map (fun kv => kv.2)
  | _ => none

def Json.isObj : Json → Bool
  | .obj _ => true
  | _ => false

/-- The Python type name of a parsed JSON value, as used in error messages. -/
def pyTypeName : Json → String
  | .null => "NoneType"
  | .bool _ => "bool"
  | .num _ => "int"
  | .str _ => "str"
  | .arr _ => "list"
  | .obj _ => "dict"

/-- Python `repr` of a string, single-quote form: used by `str(KeyError(k))`
and `int()` error messages.  (CPython switches to double quotes when the
string itself holds a single quote, and escapes non-printables; those cases
do not arise for the schema's key names.) -/
def pyReprStr (s : String) : String :=
  "'" ++ String.join (s.data.map (fun c =>
    if c = '\\' then "\\\\"
    else if c = '\'' then "\\'"
    else if c = '\n' then "\\n"
    else if c = '\r' then "\\r"
    else if c = '\t' then "\\t"
    else String.singleton c)) ++ "'"

/-- Python `repr` of a parsed JSON value. -/
def pyRepr : Json → String
  | .null => "None"
  | .bool true => "True"
  | .bool false => "False"
  | .num n => toString n
  | .str s => pyReprStr s
  | .arr l => "[" ++ String.intercalate ", " (l.attach.map (fun c => pyRepr c.1)) ++ "]"
  | .obj f => "\x7b" ++ String.intercalate ", "
      (f.attach.map (fun kv => pyReprStr kv.1.1 ++ ": " ++ pyRepr kv.1.2)) ++ "\x7d"
decreasing_by
  · have := List.sizeOf_lt_of_mem c.2; simp at *; omega
  · have := List.sizeOf_lt_of_mem kv.2
    obtain ⟨⟨k, v⟩, hv⟩ := kv
    simp at *; omega

/-- Python `str()` of a parsed JSON value. -/
def pyStr : Json → String
  | .str s => s
  | j => pyRepr j

/-- ASCII whitespace stripped by Python's `str.strip()` / `int(str)`.
(The exotic Unicode space code points also stripped by CPython do not occur
in the catalog schema.) -/
def pyWs : List Char := [' ', '\t', '\n', '\r', '\x0b', '\x0c']

/-- Python `s.strip()` with the default whitespace set. -/
def pyStrip (s : String) : String :=
  ⟨((s.data.dropWhile (fun c => pyWs.contains c)).reverse.dropWhile
      (fun c => pyWs.contains c)).reverse⟩

/-- Python `pat in s` (substring containment). -/
def strContains (s pat : String) : Bool :=
  (List.range (s.data.length + 1)).any (fun i => pat.data.isPrefixOf (s.data.drop i))

/-- Python `s.startswith(p)`. -/
def strStartsWith (s p : String) : Bool := p.data.isPrefixOf s.data

/-- Python `s.endswith(p)`. -/
def strEndsWith (s p : String) : Bool := p.data.isSuffixOf s.data

/-- Parse a non-empty run of decimal digits. -/
def digitsToNat : List Char → Option Nat
  | [] => none
  | ds =>
    if ds.all (fun c => c.isDigit) then
      some (ds.foldl (fun acc c => 10 * acc + (c.toNat - 48)) 0)
    else none

/-- Python `int(s)` for a string argument: optional surrounding whitespace,
optional sign, decimal digits.  (Digit-group underscores, accepted by
CPython, do not occur in the schema.) -/
def pyStrToInt (s : String) : Except String Int :=
  let bad : Except String Int :=
    .error ("invalid literal for int() with base 10: " ++ pyReprStr s)
  match (pyStrip s).data with
  | '-' :: ds => match digitsToNat ds with
    | some n => .ok (-(n : Int))
    | none => bad
  | '+' :: ds => match digitsToNat ds with
    | some n => .ok (n : Int)
    | none => bad
  | ds => match digitsToNat ds with
    | some n => .ok (n : Int)
    | none => bad

/-- Python `int(x)` on a parsed JSON value. -/
def pyInt : Json → Except String Int
  | .num n => .ok n
  | .bool b => .ok (if b then 1 else 0)
  | .str s => pyStrToInt s
  | j => .error ("int() argument must be a string, a bytes-like object or a real number, not "
      ++ pyReprStr (pyTypeName j))

/-- Python `j[k]` for a string key: the value, `KeyError` (whose `str` is the
repr of the key) on a dict without the key, `TypeError` otherwise. -/
def pyGetItem (j : Json) (k : String) : Except String Json :=
  match j with
  | .obj fields =>
    match (fields.find? (fun kv => kv.1 == k)).map (fun kv => kv.2) with
    | some v => .ok v
    | none => .error (pyReprStr k)
  | .arr _ => .error "list indices must be integers or slices, not str"
  | .str _ => .error "string indices must be integers, not 'str'"
  | j => .error ("'" ++ pyTypeName j ++ "' object is not subscriptable")

/-- Sequentialized Python `for`-loop collecting fallible results: stops at the
first raised exception (the `Except.error`). -/
def mapExcept {α β : Type} (f : α → Except String β) : List α → Except String (List β)
  | [] => .ok []
  | a :: l =>
    match f a with
    | .error e => .error e
    | .ok b =>
      match mapExcept f l with
      | .error e => .error e
      | .ok bs => .ok (b :: bs)

/-! ## 1) Capture of the menu JSON (`looks_like_menu_json`, `is_menu_url`) -/

/-- `MENU_HINTS = ("main-menu", "v3")` from `src/main.py`. -/
def MENU_HINTS : List String := ["main-menu", "v3"]

/-- `looks_like_menu_json(data)`: a list at least one of whose first 5
elements is a dict containing both an `id` and a `name` key. -/
def looks_like_menu_json (data : Json) : Bool :=
  match data with
  | .arr l => (l.take 5).any (fun x => x.isObj && (x.get? "id").isSome && (x.get? "name").isSome)
  | _ => false

/-- `is_menu_url(url)`: ends with `".json"` and contains every hint. -/
def is_menu_url (url : String) : Bool :=
  strEndsWith url ".json" && MENU_HINTS.all (fun h => strContains url h)

/-- The URL/payload part of `fetch_menu`'s `on_response` test: a response is
captured iff its resource type is `xhr`/`fetch`, `is_menu_url` holds of its
URL and `looks_like_menu_json` holds of its parsed body. -/
def on_response_accepts (resourceType : String) (url : String) (body : Json) : Bool :=
  (resourceType == "xhr" || resourceType == "fetch")
    && is_menu_url url && looks_like_menu_json body

/-! ## 2) Per-leaf fetching -/

def BASE_HOST : String := "https://search.wb.ru"

def BASE_PATH : String := "/exactmatch/ru/common/v18/search"

/-- `EXPAND_PARAMS` from `src/main.py`, in insertion order. -/
def EXPAND_PARAMS : List (String × String) :=
  [("appType", "1"), ("curr", "rub"), ("dest", "-1257786"), ("hide_dtype", "13"),
   ("lang", "ru"), ("filters", "ffsubject"), ("resultset", "filters"), ("spp", "30")]

/-- Bytes left unescaped by `urllib.parse.quote` as `urlencode` invokes it:
`urlencode(params, quote_via=quote)` passes its own default `safe=''` to
`quote_via`, so only the always-safe bytes remain — ASCII alphanumerics and
`_.-~`.  In particular `/` is percent-encoded (`%2F`), unlike a direct
`quote(s)` call whose default is `safe='/'`. -/
def quoteSafe (b : Nat) : Bool :=
  (65 ≤ b && b ≤ 90) || (97 ≤ b && b ≤ 122) || (48 ≤ b && b ≤ 57)
    || b == 95 || b == 46 || b == 45 || b == 126

def hexDigit (n : Nat) : Char :=
  if n < 10 then Char.ofNat (48 + n) else Char.ofNat (55 + n)

def quoteByte (b : Nat) : String :=
  if quoteSafe b then String.singleton (Char.ofNat b)
  else "%" ++ String.singleton (hexDigit (b / 16)) ++ String.singleton (hexDigit (b % 16))

/-- UTF-8 encoding of one code point, as byte values. -/
def utf8Bytes (c : Char) : List Nat :=
  let n := c.toNat
  if n < 0x80 then [n]
  else if n < 0x800 then [0xC0 + n / 0x40, 0x80 + n % 0x40]
  else if n < 0x10000 then [0xE0 + n / 0x1000, 0x80 + (n / 0x40) % 0x40, 0x80 + n % 0x40]
  else [0xF0 + n / 0x40000, 0x80 + (n / 0x1000) % 0x40, 0x80 + (n / 0x40) % 0x40, 0x80 + n % 0x40]

/-- `urllib.parse.quote(s, safe='')`, the call `urlencode` makes through
`quote_via`: percent-encode every UTF-8 byte outside the always-safe set,
with uppercase hex.  `quote` encodes a space as `%20` (it is `quote_plus`
that would use `+`) and, with `safe=''`, a slash as `%2F`. -/
def pyQuote (s : String) : String :=
  String.join ((s.data.flatMap utf8Bytes).map quoteByte)

/-- `urllib.parse.urlencode(params, quote_via=quote)`: `k=v` pairs joined by
`&`, keys and values encoded by `quote`. -/
def pyUrlencode : List (String × String) → String
  | [] => ""
  | [kv] => pyQuote kv.1 ++ "=" ++ pyQuote kv.2
  | kv :: rest => pyQuote kv.1 ++ "=" ++ pyQuote kv.2 ++ "&" ++ pyUrlencode rest

/-- `build_filters_url(query)`: the fixed search endpoint with
`EXPAND_PARAMS` plus the leaf's `query` as the final parameter. -/
def build_filters_url (query : String) : String :=
  BASE_HOST ++ BASE_PATH ++ "?" ++ pyUrlencode (EXPAND_PARAMS ++ [("query", query)])

/-- The characters stripped by the `fetch_json` fallback:
`txt.lstrip("﻿ \t\r\n")`. -/
def bomWs : List Char := ['﻿', ' ', '\t', '\r', '\n']

/-- Python `txt.lstrip("﻿ \t\r\n")`: drop the longest leading run of
characters from that set.  Trailing characters are not touched. -/
def pyLstripBomWs (s : String) : String :=
  ⟨s.data.dropWhile (fun c => bomWs.contains c)⟩

/-- `fetch_json(ctx, url, referer)`, with the transport injected: `primary`
is the outcome of `resp.json()` (the declared content type may prevent it
from parsing), `rawText` is `resp.text()`, and `loads` is `json.loads`.
On a primary failure the raw text is lstripped and re-parsed. -/
def fetch_json (primary : Except String Json) (rawText : String)
    (loads : String → Except String Json) : Except String Json :=
  match primary with
  | .ok j => .ok j
  | .error _ => loads (pyLstripBomWs rawText)

/-- One extracted subject: the dict `{"id": it["id"], "name": it["name"]}`
built by `extract_subjects` (values are kept as raw JSON; the export step
converts them later). -/
structure Subject where
  id : Json
  name : Json
deriving Repr

/-- The comprehension body of `extract_subjects`:
`{"id": it["id"], "name": it["name"]}` — subscripting may raise. -/
def subject_of_item (it : Json) : Except String Subject :=
  match pyGetItem it "id" with
  | .error e => .error e
  | .ok i =>
    match pyGetItem it "name" with
    | .error e => .error e
    | .ok n => .ok ⟨i, n⟩

/-- `'X' object has no attribute 'get'` — `f.get(...)` on a non-dict. -/
def attrGetErr (j : Json) : String :=
  "'" ++ pyTypeName j ++ "' object has no attribute 'get'"

/-- `'X' object is not iterable`. -/
def notIterableErr (j : Json) : String :=
  "'" ++ pyTypeName j ++ "' object is not iterable"

/-- The `for f in filters: if f.get("key") == "xsubject"` scan of
`extract_subjects`: first filter dict whose `key` is the string
`"xsubject"`; a non-dict element reached first raises `AttributeError`. -/
def find_xsubject : List Json → Except String (Option Json)
  | [] => .ok none
  | f :: rest =>
    match f with
    | .obj _ =>
      if (match f.get? "key" with | some (.str s) => s == "xsubject" | _ => false)
      then .ok (some f) else find_xsubject rest
    | j => .error (attrGetErr j)

/-- `[{"id": it["id"], "name": it["name"]} for it in f.get("items", [])]`.
Iterating a non-list is faithful to Python: an empty string or dict yields
nothing, a non-empty one subscripts its string elements/keys (`TypeError`),
other scalars are not iterable. -/
def items_of_filter (f : Json) : Except String (List Subject) :=
  match (f.get? "items").getD (.arr []) with
  | .arr its => mapExcept subject_of_item its
  | .str s =>
    if s.isEmpty then .ok []
    else .error "string indices must be integers, not 'str'"
  | .obj fields =>
    if fields.isEmpty then .ok []
    else .error "string indices must be integers, not 'str'"
  | j => .error (notIterableErr j)

/-- `extract_subjects(payload)`: scan `payload["data"]["filters"]` for the
`xsubject` facet; absent facet yields `[]` (not an error). -/
def extract_subjects (payload : Json) : Except String (List Subject) :=
  match pyGetItem payload "data" with
  | .error e => .error e
  | .ok dataJ =>
    match pyGetItem dataJ "filters" with
    | .error e => .error e
    | .ok filtersJ =>
      match filtersJ with
      | .arr fl =>
        match find_xsubject fl with
        | .error e => .error e
        | .ok (some f) => items_of_filter f
        | .ok none => .ok []
      | .str s =>
        if s.isEmpty then .ok [] else .error (attrGetErr (.str s))
      | .obj fields =>
        if fields.isEmpty then .ok []
        else .error (attrGetErr (.str ((fields.head?.map (fun kv => kv.1)).getD "")))
      | j => .error (notIterableErr j)

/-- `get_leaf_info(node)`: `int(node["id"])`, stripped name and url,
absolute url, and the raw `node["searchQuery"]`.  Runs BEFORE the `try`
block of `fetch_subjects_for_leaf`, so its exceptions propagate. -/
def get_leaf_info (node : Json) : Except String (Int × String × String × Json) :=
  match pyGetItem node "id" with
  | .error e => .error e
  | .ok idj =>
    match pyInt idj with
    | .error e => .error e
    | .ok leaf_id =>
      let leaf_name := pyStrip (pyStr ((node.get? "name").getD (Json.str "")))
      let leaf_url := pyStrip (pyStr ((node.get? "url").getD (Json.str "")))
      let leaf_full_url :=
        if strStartsWith leaf_url "/" then "https://www.wildberries.ru" ++ leaf_url
        else leaf_url
      match pyGetItem node "searchQuery" with
      | .error e => .error e
      | .ok q => .ok ⟨leaf_id, leaf_name, leaf_full_url, q⟩

/-- One per-leaf result record, as built by `fetch_subjects_for_leaf` and
serialized to `leaf_subjects.json`. -/
structure LeafRecord where
  leaf_id : Int
  leaf_name : String
  leaf_full_url : String
  subjects : List Subject
  error : Option String
deriving Repr

instance : Inhabited LeafRecord := ⟨⟨0, "", "", [], none⟩⟩

/-- The body of the `try` block of `fetch_subjects_for_leaf`: build the URL
(total — `urlencode`/`quote` never raise; `urlencode` stringifies the raw
query value, hence `pyStr q`), perform the fetch (`fetched` injects the
outcome of `fetch_json`), extract the subjects. -/
def leaf_fetch_pipeline (fetched : Except String Json) (q : Json) :
    Except String (List Subject) :=
  let _url := build_filters_url (pyStr q)
  match fetched with
  | .error e => .error e
  | .ok data => extract_subjects data

/-- `fetch_subjects_for_leaf(ctx, node)`: `get_leaf_info` runs outside the
`try`, then any exception of the URL-build/fetch/extract pipeline is caught
and recorded as `record["error"] = str(e)`, `subjects` staying `[]`. -/
def fetch_subjects_for_leaf (fetched : Except String Json) (node : Json) :
    Except String LeafRecord :=
  match get_leaf_info node with
  | .error e => .error e
  | .ok info =>
    match leaf_fetch_pipeline fetched info.2.2.2 with
    | .ok subs => .ok ⟨info.1, info.2.1, info.2.2.1, subs, none⟩
    | .error e => .ok ⟨info.1, info.2.1, info.2.2.1, [], some e⟩

/-! ## Tree flattening (`iter_leaves`, `select_leaves`) -/

/-- `node.get("childs") or []`, specialised to list values: the child list
when `childs` is a non-empty array, `[]` when it is absent, `null`, or an
empty array.  (A truthy non-array `childs` would make `stack.extend` raise
in Python; it is outside the menu schema.) -/
def getChilds (node : Json) : List Json :=
  match node.get? "childs" with
  | some (.arr l) => l
  | _ => ([] : List Json)

theorem sizeOf_json_pos (j : Json) : 0 < sizeOf j := by
  cases j <;> simp

theorem get?_some_mem {fields : List (String × Json)} {k : String} {v : Json}
    (h : (Json.obj fields).get? k = some v) : ∃ kk, (kk, v) ∈ fields := by
  unfold Json.get? at h
  rw [Option.map_eq_some'] at h
  obtain ⟨kv, hfind, hv⟩ := h
  have hmem := List.mem_of_find?_eq_some hfind
  refine ⟨kv.1, ?_⟩
  obtain ⟨k1, v1⟩ := kv
  simp at hv
  subst hv
  exact hmem

theorem sizeOf_lt_of_mem_getChilds {c n : Json} (h : c ∈ getChilds n) :
    sizeOf c < sizeOf n := by
  unfold getChilds at h
  cases n with
  | obj fields =>
    cases hg : (Json.obj fields).get? "childs" with
    | none => rw [hg] at h; simp at h
    | some j =>
      rw [hg] at h
      cases j with
      | arr l =>
        obtain ⟨kk, hmem⟩ := get?_some_mem hg
        have h1 : sizeOf c < sizeOf l := List.sizeOf_lt_of_mem h
        have h2 : sizeOf (kk, Json.arr l) < sizeOf fields := List.sizeOf_lt_of_mem hmem
        simp at h2 ⊢
        omega
      | null => simp at h
      | bool b => simp at h
      | num m => simp at h
      | str s => simp at h
      | obj f => simp at h
  | null => simp [Json.get?] at h
  | bool b => simp [Json.get?] at h
  | num m => simp [Json.get?] at h
  | str s => simp [Json.get?] at h
  | arr l => simp [Json.get?] at h

theorem sum_sizeOf_le_sizeOf_list (l : List Json) : (l.map sizeOf).sum ≤ sizeOf l := by
  induction l with
  | nil => simp
  | cons a t ih => simp; omega

theorem sum_sizeOf_getChilds_lt (n : Json) :
    ((getChilds n).map sizeOf).sum < sizeOf n := by
  unfold getChilds
  cases n with
  | obj fields =>
    cases hg : (Json.obj fields).get? "childs" with
    | none => simpa [hg] using sizeOf_json_pos (Json.obj fields)
    | some j =>
      cases j with
      | arr l =>
        obtain ⟨kk, hmem⟩ := get?_some_mem hg
        have h1 := sum_sizeOf_le_sizeOf_list l
        have h2 : sizeOf (kk, Json.arr l) < sizeOf fields := List.sizeOf_lt_of_mem hmem
        simp at h2 ⊢
        omega
      | null => simpa using sizeOf_json_pos (Json.obj fields)
      | bool b => simpa using sizeOf_json_pos (Json.obj fields)
      | num m => simpa using sizeOf_json_pos (Json.obj fields)
      | str s => simpa using sizeOf_json_pos (Json.obj fields)
      | obj f => simpa using sizeOf_json_pos (Json.obj fields)
  | null => simpa [Json.get?] using sizeOf_json_pos Json.null
  | bool b => simpa [Json.get?] using sizeOf_json_pos (Json.bool b)
  | num m => simpa [Json.get?] using sizeOf_json_pos (Json.num m)
  | str s => simpa [Json.get?] using sizeOf_json_pos (Json.str s)
  | arr l => simpa [Json.get?] using sizeOf_json_pos (Json.arr l)

theorem stack_step_pop (n : Json) (rest : List Json) :
    ((rest.map (fun j => sizeOf j)).sum : Nat)
      < (((n :: rest).map (fun j => sizeOf j)).sum : Nat) := by
  have := sizeOf_json_pos n
  simp
  omega

theorem stack_step_push (n : Json) (rest : List Json) :
    ((((getChilds n).reverse ++ rest).map (fun j => sizeOf j)).sum : Nat)
      < (((n :: rest).map (fun j => sizeOf j)).sum : Nat) := by
  have := sum_sizeOf_getChilds_lt n
  have heta : (List.map (fun j => sizeOf j) (getChilds n)).sum
      = (List.map sizeOf (getChilds n)).sum := rfl
  simp [List.sum_reverse]
  omega

/-- The `while stack:` loop of `iter_leaves`.  The Lean list's head is the
top of the Python stack (its last element): `node = stack.pop()` is the
head, and `stack.extend(childs)` pushes the children so that the last child
is popped first, exactly as in the source. -/
def iter_leaves_aux (stack : List Json) (out : List Json) : List Json :=
  match stack with
  | [] => out
  | node :: rest =>
    if (getChilds node).isEmpty then iter_leaves_aux rest (out ++ [node])
    else iter_leaves_aux ((getChilds node).reverse ++ rest) out
termination_by (stack.map (fun j => sizeOf j)).sum
decreasing_by
  · exact stack_step_pop _ _
  · exact stack_step_push _ _

/-- `iter_leaves(tree)`: all nodes of the forest whose child list is empty,
via an explicit stack (`stack = list(tree)`, popping from the end). -/
def iter_leaves (tree : List Json) : List Json := iter_leaves_aux tree.reverse []

/-- All nodes of the subtree rooted at `n` (the node itself and, recursively,
its children). -/
def nodesOf (n : Json) : List Json :=
  n :: (getChilds n).attach.flatMap (fun c => nodesOf c.1)
termination_by sizeOf n
decreasing_by exact sizeOf_lt_of_mem_getChilds c.2

/-- All nodes of a forest. -/
def forestNodes (tree : List Json) : List Json := tree.flatMap nodesOf

/-- The eligibility test of `select_leaves`:
`str(node.get("url", "")).startswith("/catalog") and node.get("searchQuery")`. -/
def eligible_leaf (node : Json) : Bool :=
  strStartsWith (pyStr ((node.get? "url").getD (Json.str ""))) "/catalog"
    && ((node.get? "searchQuery").getD Json.null).truthy

/-- `select_leaves(menu)`: the `for`-loop appending every `iter_leaves`
output node that passes `eligible_leaf`. -/
def select_leaves (menu : List Json) : List Json :=
  (iter_leaves menu).filter eligible_leaf

/-! ## Orchestrator (`collect_subjects`, `leaves_stats`) -/

/-- `collect_subjects(concurrency)`: one task per selected leaf — the
per-leaf fetch outcome is injected by `fetched` (indexed by the leaf's
position) — with results gathered in completion order.  The semaphore caps
in-flight fetches only; which task finishes first is scheduler-dependent and
is modelled by the index list `order` (a permutation of the task indices).
A task whose `fetch_subjects_for_leaf` raises (malformed node) crashes the
whole run, as `await coro` would re-raise it. -/
def collect_subjects (fetched : Nat → Except String Json) (menu : List Json)
    (order : List Nat) : Except String (List LeafRecord) :=
  match mapExcept (fun p => fetch_subjects_for_leaf (fetched p.1) p.2)
      (select_leaves menu).enum with
  | .error e => .error e
  | .ok recs => .ok (order.map (fun i => recs.getD i default))

/-- Python `not r.get("error")`: the record counts as error-free when the
field is falsy — absent/`None` (`Option.none`) or the empty string. -/
def errFalsy : Option String → Bool
  | none => true
  | some s => s == ""

/-- `leaves_stats(path)`: `(total, ok)` over the parsed records of
`leaf_subjects.json`. -/
def leaves_stats (data : List LeafRecord) : Nat × Nat :=
  (data.length, (data.filter (fun r => errFalsy r.error)).length)

/-! ## Export (`subjects_map`, `build_rows`) -/

/-- Python-dict assignment `res[k] = v` on an insertion-ordered association
list: overwrite in place if the key exists, else append. -/
def dictSet (res : List (Int × List Subject)) (k : Int) (v : List Subject) :
    List (Int × List Subject) :=
  if res.any (fun kv => kv.1 == k) then
    res.map (fun kv => if kv.1 == k then (k, v) else kv)
  else res ++ [(k, v)]

/-- Python-dict lookup `res.get(k)`. -/
def dictGet (res : List (Int × List Subject)) (k : Int) : Option (List Subject) :=
  (res.find? (fun kv => kv.1 == k)).map (fun kv => kv.2)

/-- `subjects_map(items)`: `leaf_id → subjects`, keeping only records whose
`error` is falsy (`not r.get("error")`).  `int(r["leaf_id"])` is the
identity on the already-integral `leaf_id`, and `r.get("subjects", []) or
[]` is the identity on a list value. -/
def subjects_map (items : List LeafRecord) : List (Int × List Subject) :=
  items.foldl
    (fun res r => if errFalsy r.error then dictSet res r.leaf_id r.subjects else res) []

/-- One `(id, name, level)` step of a root-to-leaf path, and one export row:
both are `(id, name, level)` triples in the source. -/
abbrev PathStep := Int × String × Int

abbrev Row := Int × String × Int

/-- One `level = 99` subject row: `(int(s["id"]), str(s["name"]), 99)` —
`int()` may raise on a malformed subject id. -/
def subject_row (s : Subject) : Except String Row :=
  match pyInt s.id with
  | .error e => .error e
  | .ok i => .ok (i, pyStr s.name, 99)

/-- The body of `build_rows`' `for path in paths:` loop: ancestors with
level > 0, then the leaf if its level > 0, then the leaf's subject rows.
`path[-1]` on an empty path would raise `IndexError` in Python; an empty
path never reaches `build_rows` (every `build_paths_by_root` path holds at
least the root). -/
def rows_for_path (subj_by_leaf : List (Int × List Subject)) (path : List PathStep) :
    Except String (List Row) :=
  match path.getLast? with
  | none => .ok []
  | some leaf =>
    let parents := (path.drop 1).dropLast
    let base := parents.filter (fun st => st.2.2 > 0)
    let base := if leaf.2.2 > 0 then base ++ [leaf] else base
    match mapExcept subject_row ((dictGet subj_by_leaf leaf.1).getD []) with
    | .error e => .error e
    | .ok srows => .ok (base ++ srows)

/-- `build_rows(paths, subj_by_leaf)`: concatenation of the per-path rows. -/
def build_rows (paths : List (List PathStep))
    (subj_by_leaf : List (Int × List Subject)) : Except String (List Row) :=
  match mapExcept (rows_for_path subj_by_leaf) paths with
  | .error e => .error e
  | .ok rss => .ok rss.flatten

/-! ## Characterization lemmas for the string helpers -/

theorem strContains_iff (s pat : String) :
    strContains s pat = true ↔ pat.data <:+: s.data := by
  unfold strContains
  rw [List.any_eq_true]
  constructor
  · rintro ⟨i, _, hpre⟩
    rw [List.isPrefixOf_iff_prefix] at hpre
    exact List.infix_iff_prefix_suffix.mpr ⟨s.data.drop i, hpre, List.drop_suffix i s.data⟩
  · intro hinf
    obtain ⟨t, hpre, hsuf⟩ := List.infix_iff_prefix_suffix.mp hinf
    obtain ⟨pre, hpre2⟩ := hsuf
    refine ⟨pre.length, ?_, ?_⟩
    · rw [List.mem_range]
      have : pre.length + t.length = s.data.length := by
        rw [← hpre2]; simp
      omega
    · rw [List.isPrefixOf_iff_prefix, ← hpre2, List.drop_left]
      exact hpre

theorem strEndsWith_iff (s p : String) :
    strEndsWith s p = true ↔ p.data <:+ s.data := by
  unfold strEndsWith
  exact List.isSuffixOf_iff_suffix

theorem strStartsWith_iff (s p : String) :
    strStartsWith s p = true ↔ p.data <+: s.data := by
  unfold strStartsWith
  exact List.isPrefixOf_iff_prefix

/-! ## C7: the capture classifier -/

theorem is_menu_url_iff (url : String) :
    is_menu_url url = true ↔
      ".json".data <:+ url.data ∧ "main-menu".data <:+: url.data ∧ "v3".data <:+: url.data := by
  unfold is_menu_url MENU_HINTS
  simp only [Bool.and_eq_true, List.all_cons, List.all_nil, Bool.and_true]
  rw [strEndsWith_iff, strContains_iff, strContains_iff]

theorem looks_like_menu_json_iff (body : Json) :
    looks_like_menu_json body = true ↔
      ∃ l, body = Json.arr l ∧ ∃ x ∈ l.take 5,
        (∃ fields, x = Json.obj fields) ∧ x.get? "id" ≠ none ∧ x.get? "name" ≠ none := by
  cases body with
  | arr l =>
    simp only [looks_like_menu_json, List.any_eq_true, Bool.and_eq_true]
    constructor
    · rintro ⟨x, hx, ⟨hobj, hid⟩, hname⟩
      refine ⟨l, rfl, x, hx, ?_,
        Option.isSome_iff_ne_none.mp hid, Option.isSome_iff_ne_none.mp hname⟩
      cases x with
      | obj fields => exact ⟨fields, rfl⟩
      | null => simp [Json.isObj] at hobj
      | bool b => simp [Json.isObj] at hobj
      | num n => simp [Json.isObj] at hobj
      | str s => simp [Json.isObj] at hobj
      | arr l2 => simp [Json.isObj] at hobj
    · rintro ⟨l', hl, x, hx, ⟨fields, rfl⟩, hid, hname⟩
      injection hl with h
      subst h
      exact ⟨Json.obj fields, hx,
        ⟨⟨by simp [Json.isObj], Option.isSome_iff_ne_none.mpr hid⟩,
          Option.isSome_iff_ne_none.mpr hname⟩⟩
  | null => simp [looks_like_menu_json]
  | bool b => simp [looks_like_menu_json]
  | num n => simp [looks_like_menu_json]
  | str s => simp [looks_like_menu_json]
  | obj f => simp [looks_like_menu_json]

/-- C7.  A candidate response is accepted by the capture classifier (for an
XHR/fetch resource) iff its URL ends with `".json"` and contains both
required substrings `"main-menu"` and `"v3"`, and the parsed body is a list
at least one of whose first 5 elements is a dict containing both an `"id"`
and a `"name"` key; every other URL or body shape is rejected. -/
theorem capture_classifier_characterization (rt url : String) (body : Json)
    (hrt : rt = "xhr" ∨ rt = "fetch") :
    on_response_accepts rt url body = true ↔
      (".json".data <:+ url.data
        ∧ "main-menu".data <:+: url.data
        ∧ "v3".data <:+: url.data
        ∧ ∃ l, body = Json.arr l
            ∧ ∃ x ∈ l.take 5, (∃ fields, x = Json.obj fields)
                ∧ x.get? "id" ≠ none ∧ x.get? "name" ≠ none) := by
  have hrt' : (rt == "xhr" || rt == "fetch") = true := by
    rcases hrt with h | h <;> simp [h]
  unfold on_response_accepts
  rw [hrt']
  simp only [Bool.true_and, Bool.and_eq_true]
  rw [is_menu_url_iff, looks_like_menu_json_iff]
  tauto

/-- Witness for C7 at a concrete accepted response. -/
theorem capture_classifier_characterization_witness :
    on_response_accepts "xhr"
        "https://static.wb.ru/data/main-menu-ru-ru-v3.json"
        (Json.arr [Json.obj [("id", Json.num 1), ("name", Json.str "A")]]) = true
      ∧ ".json".data <:+ "https://static.wb.ru/data/main-menu-ru-ru-v3.json".data := by
  have h := capture_classifier_characterization "xhr"
    "https://static.wb.ru/data/main-menu-ru-ru-v3.json"
    (Json.arr [Json.obj [("id", Json.num 1), ("name", Json.str "A")]]) (Or.inl rfl)
  refine ⟨h.mpr ?_, by decide⟩
  refine ⟨by decide, by decide, by decide,
    [Json.obj [("id", Json.num 1), ("name", Json.str "A")]], rfl,
    Json.obj [("id", Json.num 1), ("name", Json.str "A")], by simp,
    ⟨[("id", Json.num 1), ("name", Json.str "A")], rfl⟩, by simp [Json.get?], by simp [Json.get?]⟩

/-! ## C6: URL building for the per-leaf fetch -/

/-- The full fixed URL up to `query=`: endpoint plus the merged
`EXPAND_PARAMS`, the leaf's query text being the final parameter. -/
def URL_QUERY_PREFIX : String :=
  "https://search.wb.ru/exactmatch/ru/common/v18/search?appType=1&curr=rub&dest=-1257786&hide_dtype=13&lang=ru&filters=ffsubject&resultset=filters&spp=30&query="

set_option maxRecDepth 8192 in
/-- C6 counterexample.  `urlencode` is called with `quote_via=quote`, which
percent-encodes a space as `%20`; the produced URL for the query `"a b"`
holds `query=a%20b` and no `+` at all, refuting "space encoded as `+`". -/
theorem build_filters_url_space_counterexample :
    build_filters_url "a b"
      = "https://search.wb.ru/exactmatch/ru/common/v18/search?appType=1&curr=rub&dest=-1257786&hide_dtype=13&lang=ru&filters=ffsubject&resultset=filters&spp=30&query=a%20b"
    ∧ (build_filters_url "a b").data.contains '+' = false := by
  constructor
  · decide
  · decide

/-- C6 as amended.  For every query string the produced URL is the fixed
search endpoint with the merged required parameters followed by the query
text encoded by `quote` with `safe=''` (the call `urlencode` makes), which
encodes a space as `%20` (not `+`) and a slash as `%2F`. -/
theorem build_filters_url_encoding (q : String) :
    build_filters_url q = URL_QUERY_PREFIX ++ pyQuote q
      ∧ pyQuote " " = "%20" ∧ pyQuote "/" = "%2F" := by
  refine ⟨?_, by decide, by decide⟩
  apply String.ext
  simp only [build_filters_url, BASE_HOST, BASE_PATH, EXPAND_PARAMS, pyUrlencode,
    String.data_append, List.cons_append, List.nil_append]
  simp only [← List.append_assoc]
  congr 1

/-! ## C9: the `fetch_json` fallback -/

/-- Modelled from the spec's wording, as the comparison point for C9:
"stripping a leading byte-order mark and surrounding (leading and trailing)
whitespace from that text".  The code's `lstrip` differs: it never touches
the end of the text. -/
def spec_strip_surrounding (s : String) : String :=
  ⟨((s.data.dropWhile (fun c => bomWs.contains c)).reverse.dropWhile
      (fun c => pyWs.contains c)).reverse⟩

/-- C9 counterexample.  `fetch_json` uses `txt.lstrip(...)`: on the raw
body `"1 "` the text handed to `json.loads` keeps its trailing space, so it
is not the surrounding-stripped text the claim describes.  (`loads` is
instantiated with a parser echoing its input, exposing the parsed text.) -/
theorem fetch_json_strip_counterexample :
    fetch_json (.error "content-type") "1 " (fun s => .ok (.str s))
        = .ok (.str "1 ")
      ∧ spec_strip_surrounding "1 " = "1"
      ∧ .ok (.str "1 ")
          ≠ (Except.ok (Json.str (spec_strip_surrounding "1 ")) : Except String Json) := by
  have h1 : spec_strip_surrounding "1 " = "1" := by decide
  refine ⟨rfl, h1, ?_⟩
  rw [h1]
  intro h
  have h2 := congrArg (fun x => match x with
    | Except.ok (Json.str s) => s
    | _ => "") h
  simp only at h2
  exact absurd h2 (by decide)

theorem head?_dropWhile_not {α : Type} (p : α → Bool) (l : List α) {c : α}
    (h : (l.dropWhile p).head? = some c) : p c = false := by
  induction l with
  | nil => simp [List.dropWhile] at h
  | cons a t ih =>
    by_cases hp : p a = true
    · rw [List.dropWhile_cons] at h
      simp only [hp, if_true] at h
      exact ih h
    · rw [List.dropWhile_cons] at h
      simp only [hp, if_false] at h
      simp at h
      rw [← h]
      simpa using hp

/-- C9 as amended.  When the primary parse fails, `fetch_json` parses the
raw text with only its LEADING run of byte-order-mark/whitespace characters
removed; trailing characters are left in place. -/
theorem fetch_json_fallback (e : String) (raw : String)
    (loads : String → Except String Json) :
    fetch_json (.error e) raw loads = loads (pyLstripBomWs raw)
      ∧ (∃ pre, raw.data = pre ++ (pyLstripBomWs raw).data
          ∧ ∀ c ∈ pre, c ∈ bomWs)
      ∧ (∀ c, (pyLstripBomWs raw).data.head? = some c → c ∉ bomWs) := by
  refine ⟨rfl, ⟨raw.data.takeWhile (fun c => bomWs.contains c), ?_, ?_⟩, ?_⟩
  · simp [pyLstripBomWs]
  · intro c hc
    have := List.mem_takeWhile_imp hc
    simpa using this
  · intro c hc
    unfold pyLstripBomWs at hc
    simp only at hc
    have := head?_dropWhile_not (fun c => bomWs.contains c) raw.data hc
    simpa using this

/-! ## C1 / C10: the per-leaf exception boundary -/

theorem pyGetItem_ok_iff {j : Json} {k : String} {v : Json} :
    pyGetItem j k = .ok v ↔ j.get? k = some v := by
  cases j with
  | obj fields =>
    unfold pyGetItem Json.get?
    cases hf : fields.find? (fun kv => kv.1 == k) with
    | none => simp [hf]
    | some kv => simp [hf]
  | null => simp [pyGetItem, Json.get?]
  | bool b => simp [pyGetItem, Json.get?]
  | num n => simp [pyGetItem, Json.get?]
  | str s => simp [pyGetItem, Json.get?]
  | arr l => simp [pyGetItem, Json.get?]

theorem pyGetItem_error_of_get?_none {j : Json} {k : String}
    (h : j.get? k = none) : ∃ e, pyGetItem j k = .error e := by
  cases hg : pyGetItem j k with
  | error e => exact ⟨e, rfl⟩
  | ok v => rw [pyGetItem_ok_iff.mp hg] at h; cases h

/-- C1.  When `get_leaf_info` succeeds (the node is well-formed), any error
of the URL-build/fetch/extract pipeline is caught inside
`fetch_subjects_for_leaf` and recorded as `record.error = str(e)` with
`subjects` left empty, and the function returns the record — it never
returns (re-raises) such an error itself. -/
theorem fetch_subjects_containment (fetched : Except String Json) (node : Json)
    (info : Int × String × String × Json) (h : get_leaf_info node = .ok info) :
    ∃ rec : LeafRecord, fetch_subjects_for_leaf fetched node = .ok rec
      ∧ (∀ e, leaf_fetch_pipeline fetched info.2.2.2 = .error e →
          rec.error = some e ∧ rec.subjects = [])
      ∧ (∀ subs, leaf_fetch_pipeline fetched info.2.2.2 = .ok subs →
          rec.error = none ∧ rec.subjects = subs) := by
  have key : fetch_subjects_for_leaf fetched node
      = match leaf_fetch_pipeline fetched info.2.2.2 with
        | .ok subs => .ok ⟨info.1, info.2.1, info.2.2.1, subs, none⟩
        | .error e => .ok ⟨info.1, info.2.1, info.2.2.1, [], some e⟩ := by
    unfold fetch_subjects_for_leaf
    rw [h]
  rw [key]
  cases hp : leaf_fetch_pipeline fetched info.2.2.2 with
  | ok subs =>
    refine ⟨⟨info.1, info.2.1, info.2.2.1, subs, none⟩, rfl, ?_, ?_⟩
    · intro e he; simp at he
    · intro s hs; injection hs with h2; subst h2; exact ⟨rfl, rfl⟩
  | error e =>
    refine ⟨⟨info.1, info.2.1, info.2.2.1, [], some e⟩, rfl, ?_, ?_⟩
    · intro e' he; injection he with h2; subst h2; exact ⟨rfl, rfl⟩
    · intro s hs; simp at hs

/-- Witness for C1: a concrete leaf whose fetch fails with `"net down"`. -/
theorem fetch_subjects_containment_witness :
    get_leaf_info (Json.obj [("id", Json.num 2), ("name", Json.str "Leaf"),
        ("url", Json.str "/catalog/x"), ("searchQuery", Json.str "q")])
      = .ok (2, "Leaf", "https://www.wildberries.ru/catalog/x", Json.str "q")
    ∧ ∃ rec : LeafRecord,
        fetch_subjects_for_leaf (.error "net down")
            (Json.obj [("id", Json.num 2), ("name", Json.str "Leaf"),
              ("url", Json.str "/catalog/x"), ("searchQuery", Json.str "q")])
          = .ok rec
        ∧ rec.error = some "net down" ∧ rec.subjects = [] := by
  have hinfo : get_leaf_info (Json.obj [("id", Json.num 2), ("name", Json.str "Leaf"),
      ("url", Json.str "/catalog/x"), ("searchQuery", Json.str "q")])
      = .ok (2, "Leaf", "https://www.wildberries.ru/catalog/x", Json.str "q") := rfl
  refine ⟨hinfo, ?_⟩
  obtain ⟨rec, hrec, herr, -⟩ := fetch_subjects_containment (.error "net down") _ _ hinfo
  exact ⟨rec, hrec, herr "net down" rfl⟩

/-- C10.  `get_leaf_info` runs before the `try` block, so its exceptions
(missing `"id"` or `"searchQuery"` key, or an `"id"` that `int()` cannot
convert) propagate out of `fetch_subjects_for_leaf` instead of being
recorded on a LeafRecord. -/
theorem get_leaf_info_outside_try (fetched : Except String Json) (node : Json) :
    (∀ e, get_leaf_info node = .error e →
        fetch_subjects_for_leaf fetched node = .error e)
    ∧ ((node.get? "id" = none
        ∨ (∃ j, node.get? "id" = some j ∧ ∃ e0, pyInt j = .error e0)
        ∨ node.get? "searchQuery" = none) →
        ∃ e, fetch_subjects_for_leaf fetched node = .error e) := by
  constructor
  · intro e he
    unfold fetch_subjects_for_leaf
    rw [he]
  · intro hbad
    have hfail : ∃ e, get_leaf_info node = .error e := by
      unfold get_leaf_info
      cases hid : pyGetItem node "id" with
      | error e => exact ⟨e, rfl⟩
      | ok idj =>
        dsimp only
        have hid' := pyGetItem_ok_iff.mp hid
        cases hpi : pyInt idj with
        | error e => exact ⟨e, rfl⟩
        | ok leaf_id =>
          dsimp only
          rcases hbad with hnone | ⟨j, hj, e0, hje⟩ | hq
          · rw [hid'] at hnone; cases hnone
          · rw [hid'] at hj; injection hj with hj'; subst hj'
            rw [hpi] at hje; cases hje
          · obtain ⟨e, he⟩ := pyGetItem_error_of_get?_none hq
            exact ⟨e, by rw [he]⟩
    obtain ⟨e, he⟩ := hfail
    refine ⟨e, ?_⟩
    unfold fetch_subjects_for_leaf
    rw [he]

/-- Witness for C10: a node with an `id` but no `searchQuery` makes
`fetch_subjects_for_leaf` raise (`KeyError: 'searchQuery'`). -/
theorem get_leaf_info_outside_try_witness :
    ∃ e, fetch_subjects_for_leaf (.ok (Json.obj []))
        (Json.obj [("id", Json.num 5)]) = .error e := by
  refine (get_leaf_info_outside_try (.ok (Json.obj []))
      (Json.obj [("id", Json.num 5)])).2 ?_
  right; right
  rfl

/-- Witness for the amended C9 at a concrete raw body. -/
theorem fetch_json_fallback_witness :
    fetch_json (.error "boom") "\t 1 " (fun s => .ok (.str s)) = .ok (.str "1 ") := by
  have h := (fetch_json_fallback "boom" "\t 1 " (fun s => .ok (.str s))).1
  rw [h]
  exact congrArg (fun s => Except.ok (Json.str s))
    (by decide : pyLstripBomWs "\t 1 " = "1 ")

/-! ## C3: the subjects/error invariant of a LeafRecord -/

/-- The `data.filters` list of a response payload, when it is an array —
the phrase "the response's data.filters list" of the claim. -/
def filters_list (payload : Json) : Option (List Json) :=
  match (payload.get? "data").bind (fun d => d.get? "filters") with
  | some (Json.arr fl) => some fl
  | _ => none

/-- "the filter whose key equals `"xsubject"`". -/
def is_xsubject_filter (f : Json) : Bool :=
  match f.get? "key" with
  | some (.str s) => s == "xsubject"
  | _ => false

/-- The items list of a filter object: `f.get("items", [])` when it is an
array, `[]` otherwise (the non-array success cases of `items_of_filter`
iterate nothing). -/
def items_of (f : Json) : List Json :=
  match (f.get? "items").getD (.arr []) with
  | .arr its => its
  | _ => []

theorem find_xsubject_ok_some {fl : List Json} {f : Json}
    (h : find_xsubject fl = .ok (some f)) :
    fl.find? is_xsubject_filter = some f := by
  induction fl with
  | nil => simp [find_xsubject] at h
  | cons g rest ih =>
    unfold find_xsubject at h
    cases g with
    | obj gf =>
      by_cases hk : (match (Json.obj gf).get? "key" with
          | some (.str s) => s == "xsubject" | _ => false) = true
      · rw [if_pos hk] at h
        injection h with h2
        injection h2 with h3
        subst h3
        rw [List.find?_cons_of_pos]
        exact hk
      · rw [if_neg hk] at h
        rw [List.find?_cons_of_neg, ih h]
        simpa [is_xsubject_filter] using hk
    | null => simp at h
    | bool b => simp at h
    | num n => simp at h
    | str s => simp at h
    | arr l => simp at h

theorem find_xsubject_ok_none {fl : List Json}
    (h : find_xsubject fl = .ok none) :
    fl.find? is_xsubject_filter = none := by
  induction fl with
  | nil => simp
  | cons g rest ih =>
    unfold find_xsubject at h
    cases g with
    | obj gf =>
      by_cases hk : (match (Json.obj gf).get? "key" with
          | some (.str s) => s == "xsubject" | _ => false) = true
      · rw [if_pos hk] at h
        injection h with h2
        cases h2
      · rw [if_neg hk] at h
        rw [List.find?_cons_of_neg, ih h]
        simpa [is_xsubject_filter] using hk
    | null => simp at h
    | bool b => simp at h
    | num n => simp at h
    | str s => simp at h
    | arr l => simp at h

theorem find_xsubject_of_all_obj_none {fl : List Json}
    (hobj : ∀ f ∈ fl, f.isObj = true)
    (h : fl.find? is_xsubject_filter = none) :
    find_xsubject fl = .ok none := by
  induction fl with
  | nil => simp [find_xsubject]
  | cons g rest ih =>
    rw [List.find?_cons] at h
    unfold find_xsubject
    cases g with
    | obj gf =>
      have hk : is_xsubject_filter (Json.obj gf) = false := by
        cases hx : is_xsubject_filter (Json.obj gf)
        · rfl
        · rw [hx] at h; simp at h
      rw [hk] at h
      simp only at h
      unfold is_xsubject_filter at hk
      rw [if_neg (by simp [hk])]
      exact ih (fun f hf => hobj f (List.mem_cons_of_mem _ hf)) h
    | null => have := hobj Json.null (by simp); simp [Json.isObj] at this
    | bool b => have := hobj (Json.bool b) (by simp); simp [Json.isObj] at this
    | num n => have := hobj (Json.num n) (by simp); simp [Json.isObj] at this
    | str s => have := hobj (Json.str s) (by simp); simp [Json.isObj] at this
    | arr l => have := hobj (Json.arr l) (by simp); simp [Json.isObj] at this

/-- When `data.filters` is an array, `extract_subjects` is the scan over it. -/
theorem extract_subjects_eq_of_filters {payload : Json} {fl : List Json}
    (h : filters_list payload = some fl) :
    extract_subjects payload
      = match find_xsubject fl with
        | .error e => .error e
        | .ok (some f) => items_of_filter f
        | .ok none => .ok [] := by
  unfold filters_list at h
  cases hd : (payload.get? "data").bind (fun d => d.get? "filters") with
  | none => rw [hd] at h; simp at h
  | some fj =>
    rw [hd] at h
    rw [Option.bind_eq_some] at hd
    obtain ⟨d, hdata, hfilters⟩ := hd
    cases fj with
    | arr fl' =>
      simp only [Option.some.injEq] at h
      subst h
      unfold extract_subjects
      rw [pyGetItem_ok_iff.mpr hdata]
      dsimp only
      rw [pyGetItem_ok_iff.mpr hfilters]
    | null => simp at h
    | bool b => simp at h
    | num n => simp at h
    | str s => simp at h
    | obj f => simp at h

theorem items_of_filter_ok {f : Json} {subs : List Subject}
    (h : items_of_filter f = .ok subs) :
    mapExcept subject_of_item (items_of f) = .ok subs := by
  unfold items_of_filter at h
  unfold items_of
  cases hi : (f.get? "items").getD (.arr []) with
  | arr its => rw [hi] at h; exact h
  | str s =>
    rw [hi] at h
    dsimp only at h ⊢
    by_cases hs : s.isEmpty
    · rw [if_pos hs] at h
      injection h with h2
      subst h2
      rfl
    · rw [if_neg hs] at h
      cases h
  | obj fields =>
    rw [hi] at h
    dsimp only at h ⊢
    by_cases hs : fields.isEmpty
    · rw [if_pos hs] at h
      injection h with h2
      subst h2
      rfl
    · rw [if_neg hs] at h
      cases h
  | null => rw [hi] at h; cases h
  | bool b => rw [hi] at h; cases h
  | num n => rw [hi] at h; cases h

/-- C3.  A LeafRecord produced by `fetch_subjects_for_leaf` has `subjects
== []` whenever `error != null`; when `error == null` its `subjects` are
exactly the successful extraction from the fetched payload.  And
`extract_subjects` yields, on success, the `{id, name}` pairs of the items
of the (first) filter whose `key` is `"xsubject"`, in response order, and
`[]` — success, not an error — when the filters list holds no such filter. -/
theorem leaf_record_subjects_invariant (fetched : Except String Json) (node : Json)
    (rec : LeafRecord) (h : fetch_subjects_for_leaf fetched node = .ok rec) :
    (rec.error ≠ none → rec.subjects = [])
    ∧ (rec.error = none →
        ∃ payload, fetched = .ok payload ∧ extract_subjects payload = .ok rec.subjects)
    ∧ (∀ payload fl subs, filters_list payload = some fl →
        extract_subjects payload = .ok subs →
        (∀ f, fl.find? is_xsubject_filter = some f →
            mapExcept subject_of_item (items_of f) = .ok subs)
        ∧ (fl.find? is_xsubject_filter = none → subs = []))
    ∧ (∀ payload fl, filters_list payload = some fl →
        (∀ f ∈ fl, f.isObj = true) → fl.find? is_xsubject_filter = none →
        extract_subjects payload = .ok []) := by
  refine ⟨?_, ?_, ?_, ?_⟩
  · -- error → subjects empty
    intro herr
    unfold fetch_subjects_for_leaf at h
    cases hinfo : get_leaf_info node with
    | error e => rw [hinfo] at h; cases h
    | ok info =>
      rw [hinfo] at h
      dsimp only at h
      cases hp : leaf_fetch_pipeline fetched info.2.2.2 with
      | ok subs =>
        rw [hp] at h
        injection h with h2
        rw [← h2] at herr
        simp at herr
      | error e =>
        rw [hp] at h
        injection h with h2
        rw [← h2]
  · -- no error → subjects extracted from the fetched payload
    intro herr
    unfold fetch_subjects_for_leaf at h
    cases hinfo : get_leaf_info node with
    | error e => rw [hinfo] at h; cases h
    | ok info =>
      rw [hinfo] at h
      dsimp only at h
      cases hp : leaf_fetch_pipeline fetched info.2.2.2 with
      | ok subs =>
        rw [hp] at h
        injection h with h2
        unfold leaf_fetch_pipeline at hp
        cases hf : fetched with
        | error e => rw [hf] at hp; cases hp
        | ok payload =>
          rw [hf] at hp
          dsimp only at hp
          exact ⟨payload, rfl, by rw [← h2]; exact hp⟩
      | error e =>
        rw [hp] at h
        injection h with h2
        rw [← h2] at herr
        simp at herr
  · -- success characterization: the xsubject facet, in order
    intro payload fl subs hfl hok
    rw [extract_subjects_eq_of_filters hfl] at hok
    constructor
    · intro f hfind
      cases hx : find_xsubject fl with
      | error e => rw [hx] at hok; cases hok
      | ok o =>
        cases o with
        | none => rw [find_xsubject_ok_none hx] at hfind; cases hfind
        | some g =>
          have hg := find_xsubject_ok_some hx
          rw [hg] at hfind
          injection hfind with hgf
          subst hgf
          rw [hx] at hok
          exact items_of_filter_ok hok
    · intro hnone
      cases hx : find_xsubject fl with
      | error e => rw [hx] at hok; cases hok
      | ok o =>
        cases o with
        | none =>
          rw [hx] at hok
          injection hok with h2
          exact h2.symm
        | some g =>
          rw [find_xsubject_ok_some hx] at hnone
          cases hnone
  · -- absent facet: success with []
    intro payload fl hfl hobj hnone
    rw [extract_subjects_eq_of_filters hfl,
      find_xsubject_of_all_obj_none hobj hnone]

/-- Witness for C3: a concrete failing record and the characterization at a
concrete payload. -/
theorem leaf_record_subjects_invariant_witness :
    ∃ rec : LeafRecord,
      fetch_subjects_for_leaf (.error "net down")
          (Json.obj [("id", Json.num 2), ("searchQuery", Json.str "q")]) = .ok rec
      ∧ (rec.error ≠ none → rec.subjects = []) ∧ rec.error = some "net down" := by
  refine ⟨⟨2, "", "", [], some "net down"⟩, rfl, ?_, rfl⟩
  exact (leaf_record_subjects_invariant (.error "net down")
    (Json.obj [("id", Json.num 2), ("searchQuery", Json.str "q")])
    ⟨2, "", "", [], some "net down"⟩ rfl).1

/-! ## C2: one LeafRecord per input leaf -/

theorem mapExcept_ok_length {α β : Type} {f : α → Except String β} {l : List α}
    {bs : List β} (h : mapExcept f l = .ok bs) : bs.length = l.length := by
  induction l generalizing bs with
  | nil =>
    unfold mapExcept at h
    injection h with h2
    subst h2
    rfl
  | cons a t ih =>
    unfold mapExcept at h
    cases hf : f a with
    | error e => rw [hf] at h; cases h
    | ok b =>
      rw [hf] at h
      cases hm : mapExcept f t with
      | error e => rw [hm] at h; cases h
      | ok bs' =>
        rw [hm] at h
        injection h with h2
        subst h2
        simp [ih hm]

/-- C2.  For every eligible-leaf list, every concurrency cap `C ≥ 1` and
every completion order the scheduler may produce (any permutation of the
task indices), a successful `collect_subjects` run returns exactly one
LeafRecord per selected leaf: `|output| = |input|`, whether the individual
fetches succeeded or failed. -/
theorem collect_subjects_one_record_per_leaf
    (fetched : Nat → Except String Json) (menu : List Json)
    (order : List Nat) (C : Nat) (hC : 1 ≤ C)
    (hsched : order.Perm (List.range (select_leaves menu).length))
    (recs : List LeafRecord)
    (h : collect_subjects fetched menu order = .ok recs) :
    recs.length = (select_leaves menu).length := by
  unfold collect_subjects at h
  cases hm : mapExcept (fun p => fetch_subjects_for_leaf (fetched p.1) p.2)
      (select_leaves menu).enum with
  | error e => rw [hm] at h; cases h
  | ok rs =>
    rw [hm] at h
    injection h with h2
    subst h2
    rw [List.length_map, hsched.length_eq, List.length_range]

/-- Witness for C2: one eligible leaf whose fetch fails still yields exactly
one record. -/
theorem collect_subjects_one_record_per_leaf_witness :
    collect_subjects (fun _ => .error "boom")
        [Json.obj [("id", Json.num 2), ("url", Json.str "/catalog/x"),
          ("searchQuery", Json.str "q")]] [0]
      = .ok [⟨2, "", "https://www.wildberries.ru/catalog/x", [], some "boom"⟩]
    ∧ ([(⟨2, "", "https://www.wildberries.ru/catalog/x", [], some "boom"⟩ : LeafRecord)]).length
      = (select_leaves [Json.obj [("id", Json.num 2), ("url", Json.str "/catalog/x"),
          ("searchQuery", Json.str "q")]]).length := by
  have hsel : select_leaves [Json.obj [("id", Json.num 2), ("url", Json.str "/catalog/x"),
      ("searchQuery", Json.str "q")]]
      = [Json.obj [("id", Json.num 2), ("url", Json.str "/catalog/x"),
          ("searchQuery", Json.str "q")]] := by
    simp [select_leaves, iter_leaves, iter_leaves_aux, getChilds, Json.get?,
      eligible_leaf, Json.truthy, strStartsWith, pyStr, pyStrip]
  have hcol : collect_subjects (fun _ => .error "boom")
      [Json.obj [("id", Json.num 2), ("url", Json.str "/catalog/x"),
        ("searchQuery", Json.str "q")]] [0]
      = .ok [⟨2, "", "https://www.wildberries.ru/catalog/x", [], some "boom"⟩] := by
    unfold collect_subjects
    rw [hsel]
    rfl
  refine ⟨hcol, ?_⟩
  refine collect_subjects_one_record_per_leaf (fun _ => .error "boom") _ [0] 24
    (by omega) ?_ _ hcol
  rw [hsel]
  decide

/-! ## C4: leaf selection -/

theorem iter_leaves_aux_nil (out : List Json) : iter_leaves_aux [] out = out := by
  simp [iter_leaves_aux]

theorem iter_leaves_aux_cons_empty {node : Json}
    (hempty : (getChilds node).isEmpty = true) (rest out : List Json) :
    iter_leaves_aux (node :: rest) out = iter_leaves_aux rest (out ++ [node]) := by
  conv_lhs => rw [iter_leaves_aux.eq_def]
  dsimp only
  rw [if_pos hempty]

theorem iter_leaves_aux_cons_push {node : Json}
    (hne : ¬(getChilds node).isEmpty = true) (rest out : List Json) :
    iter_leaves_aux (node :: rest) out
      = iter_leaves_aux ((getChilds node).reverse ++ rest) out := by
  conv_lhs => rw [iter_leaves_aux.eq_def]
  dsimp only
  rw [if_neg hne]

theorem mem_nodesOf {n m : Json} :
    n ∈ nodesOf m ↔ n = m ∨ ∃ c ∈ getChilds m, n ∈ nodesOf c := by
  conv_lhs => rw [nodesOf]
  simp [List.mem_flatMap]

theorem mem_iter_leaves_aux (stack out : List Json) (n : Json) :
    n ∈ iter_leaves_aux stack out
      ↔ n ∈ out ∨ ∃ m ∈ stack, n ∈ nodesOf m ∧ getChilds n = [] := by
  induction stack, out using iter_leaves_aux.induct with
  | case1 out => simp [iter_leaves_aux_nil]
  | case2 out node rest hempty ih =>
    have hch : getChilds node = [] := List.isEmpty_iff.mp hempty
    have hnodes : nodesOf node = [node] := by
      rw [nodesOf, hch]
      simp
    rw [iter_leaves_aux_cons_empty hempty, ih]
    simp only [List.mem_append, List.mem_cons, List.not_mem_nil, or_false]
    constructor
    · rintro ((h | h) | ⟨m, hm, hn, hcond⟩)
      · exact Or.inl h
      · subst h
        exact Or.inr ⟨n, Or.inl rfl, by rw [hnodes]; simp, hch⟩
      · exact Or.inr ⟨m, Or.inr hm, hn, hcond⟩
    · rintro (h | ⟨m, hm | hm, hn, hcond⟩)
      · exact Or.inl (Or.inl h)
      · subst hm
        rw [hnodes] at hn
        simp at hn
        exact Or.inl (Or.inr hn)
      · exact Or.inr ⟨m, hm, hn, hcond⟩
  | case3 out node rest hne ih =>
    rw [iter_leaves_aux_cons_push hne, ih]
    simp only [List.mem_append, List.mem_reverse, List.mem_cons]
    constructor
    · rintro (h | ⟨m, hm | hm, hn, hcond⟩)
      · exact Or.inl h
      · exact Or.inr ⟨node, Or.inl rfl, mem_nodesOf.mpr (Or.inr ⟨m, hm, hn⟩), hcond⟩
      · exact Or.inr ⟨m, Or.inr hm, hn, hcond⟩
    · rintro (h | ⟨m, hm | hm, hn, hcond⟩)
      · exact Or.inl h
      · subst hm
        rcases mem_nodesOf.mp hn with rfl | ⟨c, hc, hnc⟩
        · exact absurd (by rw [hcond]; rfl) hne
        · exact Or.inr ⟨c, Or.inl hc, hnc, hcond⟩
      · exact Or.inr ⟨m, Or.inr hm, hn, hcond⟩

/-- A node comes out of `iter_leaves` iff it is a node of the forest whose
child list is empty (or absent). -/
theorem mem_iter_leaves (tree : List Json) (n : Json) :
    n ∈ iter_leaves tree ↔ n ∈ forestNodes tree ∧ getChilds n = [] := by
  unfold iter_leaves forestNodes
  rw [mem_iter_leaves_aux]
  constructor
  · rintro (h | ⟨m, hm, hn, hcond⟩)
    · cases h
    · exact ⟨List.mem_flatMap.mpr ⟨m, List.mem_reverse.mp hm, hn⟩, hcond⟩
  · rintro ⟨hf, hcond⟩
    obtain ⟨m, hm, hn⟩ := List.mem_flatMap.mp hf
    exact Or.inr ⟨m, List.mem_reverse.mpr hm, hn, hcond⟩

/-- C4.  For every forest, `select_leaves` returns exactly the nodes
emitted by `iter_leaves` (the forest nodes with an empty/absent child list)
whose url starts with `"/catalog"` and whose `searchQuery` is present and
non-empty (the code's truthiness test, under the schema hypothesis that a
present `searchQuery` is a string). -/
theorem select_leaves_characterization (menu : List Json) (n : Json)
    (hq : ∀ j, n.get? "searchQuery" = some j → ∃ s, j = Json.str s) :
    n ∈ select_leaves menu
      ↔ n ∈ forestNodes menu ∧ getChilds n = []
        ∧ strStartsWith (pyStr ((n.get? "url").getD (Json.str ""))) "/catalog" = true
        ∧ ∃ s, n.get? "searchQuery" = some (Json.str s) ∧ s ≠ "" := by
  unfold select_leaves
  rw [List.mem_filter, mem_iter_leaves]
  unfold eligible_leaf
  constructor
  · rintro ⟨⟨hf, hch⟩, helig⟩
    rw [Bool.and_eq_true] at helig
    refine ⟨hf, hch, helig.1, ?_⟩
    cases hgq : n.get? "searchQuery" with
    | none =>
      rw [hgq] at helig
      simp [Json.truthy] at helig
    | some j =>
      obtain ⟨s, rfl⟩ := hq j hgq
      rw [hgq] at helig
      refine ⟨s, rfl, ?_⟩
      intro hs
      subst hs
      simp [Json.truthy] at helig
  · rintro ⟨hf, hch, hurl, s, hgq, hs⟩
    refine ⟨⟨hf, hch⟩, ?_⟩
    rw [Bool.and_eq_true]
    refine ⟨hurl, ?_⟩
    rw [hgq]
    simpa [Json.truthy] using hs

/-- Witness for C4 at a one-node forest. -/
theorem select_leaves_characterization_witness :
    (Json.obj [("id", Json.num 2), ("url", Json.str "/catalog/x"),
        ("searchQuery", Json.str "q")])
      ∈ select_leaves [Json.obj [("id", Json.num 2), ("url", Json.str "/catalog/x"),
        ("searchQuery", Json.str "q")]] := by
  have hget : (Json.obj [("id", Json.num 2), ("url", Json.str "/catalog/x"),
      ("searchQuery", Json.str "q")]).get? "searchQuery" = some (Json.str "q") := rfl
  refine (select_leaves_characterization _ _ ?_).mpr ⟨?_, rfl, by decide, "q", hget, by decide⟩
  · intro j hj
    rw [hget] at hj
    injection hj with h2
    exact ⟨"q", h2.symm⟩
  · have hn0 : nodesOf (Json.obj [("id", Json.num 2), ("url", Json.str "/catalog/x"),
        ("searchQuery", Json.str "q")])
        = [Json.obj [("id", Json.num 2), ("url", Json.str "/catalog/x"),
            ("searchQuery", Json.str "q")]] := by
      rw [nodesOf, show getChilds (Json.obj [("id", Json.num 2), ("url", Json.str "/catalog/x"),
        ("searchQuery", Json.str "q")]) = [] from rfl]
      simp
    simp [forestNodes, hn0]

/-! ## C5: export rows -/

theorem build_rows_nil (m : List (Int × List Subject)) : build_rows [] m = .ok [] := rfl

theorem build_rows_cons (p : List PathStep) (ps : List (List PathStep))
    (m : List (Int × List Subject)) :
    build_rows (p :: ps) m
      = match rows_for_path m p with
        | .error e => .error e
        | .ok r1 =>
          match build_rows ps m with
          | .error e => .error e
          | .ok rest => .ok (r1 ++ rest) := by
  unfold build_rows
  simp only [mapExcept]
  cases h1 : rows_for_path m p with
  | error e => rfl
  | ok r1 =>
    dsimp only
    cases h2 : mapExcept (rows_for_path m) ps with
    | error e => rfl
    | ok rss =>
      dsimp only
      rw [List.flatten_cons]

theorem subject_row_level {s : Subject} {r : Row} (h : subject_row s = .ok r) :
    r.2.2 = 99 := by
  unfold subject_row at h
  cases hp : pyInt s.id with
  | error e => rw [hp] at h; cases h
  | ok i => rw [hp] at h; injection h with h2; rw [← h2]

theorem subject_rows_level {subs : List Subject} {srows : List Row}
    (h : mapExcept subject_row subs = .ok srows) : ∀ r ∈ srows, r.2.2 = 99 := by
  induction subs generalizing srows with
  | nil =>
    unfold mapExcept at h
    injection h with h2
    subst h2
    simp
  | cons s t ih =>
    unfold mapExcept at h
    cases hs : subject_row s with
    | error e => rw [hs] at h; cases h
    | ok r0 =>
      rw [hs] at h
      cases hm : mapExcept subject_row t with
      | error e => rw [hm] at h; cases h
      | ok rs0 =>
        rw [hm] at h
        injection h with h2
        subst h2
        intro r hr
        rcases List.mem_cons.mp hr with rfl | hr'
        · exact subject_row_level hs
        · exact ih hm r hr'

theorem rows_for_path_level_ne_zero {m : List (Int × List Subject)}
    {path : List PathStep} {rows : List Row}
    (h : rows_for_path m path = .ok rows) : ∀ r ∈ rows, r.2.2 ≠ 0 := by
  unfold rows_for_path at h
  cases hl : path.getLast? with
  | none =>
    rw [hl] at h
    injection h with h2
    subst h2
    simp
  | some leaf =>
    rw [hl] at h
    dsimp only at h
    cases hm : mapExcept subject_row ((dictGet m leaf.1).getD []) with
    | error e => rw [hm] at h; cases h
    | ok srows =>
      rw [hm] at h
      injection h with h2
      subst h2
      intro r hr
      rcases List.mem_append.mp hr with hb | hsr
      · by_cases hlev : leaf.2.2 > 0
        · rw [if_pos hlev] at hb
          rcases List.mem_append.mp hb with hp | hleaf
          · have := (List.mem_filter.mp hp).2
            simp at this
            omega
          · simp at hleaf
            subst hleaf
            omega
        · rw [if_neg hlev] at hb
          have := (List.mem_filter.mp hb).2
          simp at this
          omega
      · have := subject_rows_level hm r hsr
        omega

theorem dictGet_cons (kv : Int × List Subject) (rest : List (Int × List Subject))
    (k : Int) :
    dictGet (kv :: rest) k = if kv.1 = k then some kv.2 else dictGet rest k := by
  unfold dictGet
  rw [List.find?_cons]
  by_cases hkk : kv.1 = k
  · have hb : (kv.1 == k) = true := beq_iff_eq.mpr hkk
    rw [hb, if_pos hkk]
    rfl
  · have hb : (kv.1 == k) = false := beq_eq_false_iff_ne.mpr hkk
    rw [hb, if_neg hkk]

theorem dictGet_filter (m : List (Int × List Subject)) (keep : Int → Bool) (k : Int) :
    dictGet (m.filter (fun kv => keep kv.1)) k
      = if keep k then dictGet m k else none := by
  induction m with
  | nil => by_cases hkk : keep k = true <;> simp [dictGet, hkk]
  | cons kv rest ih =>
    rw [List.filter_cons]
    by_cases hk : keep kv.1 = true
    · rw [if_pos (show (fun kv => keep kv.1) kv = true from hk), dictGet_cons, dictGet_cons]
      by_cases hkk : kv.1 = k
      · subst hkk
        rw [if_pos rfl, if_pos hk, if_pos rfl]
      · rw [if_neg hkk, if_neg hkk, ih]
    · rw [if_neg (show ¬(fun kv => keep kv.1) kv = true from hk), ih]
      by_cases hkeepk : keep k = true
      · rw [if_pos hkeepk, if_pos hkeepk, dictGet_cons,
          if_neg (fun hkk => hk (by rw [hkk]; exact hkeepk))]
      · rw [if_neg hkeepk, if_neg hkeepk]

theorem rows_for_path_filter_keep {m : List (Int × List Subject)} (keep : Int → Bool)
    {path : List PathStep} {rows : List Row}
    (h : rows_for_path m path = .ok rows) :
    ∃ rows', rows_for_path (m.filter (fun kv => keep kv.1)) path = .ok rows'
      ∧ rows'.Sublist rows
      ∧ rows'.filter (fun r => r.2.2 != 99) = rows.filter (fun r => r.2.2 != 99) := by
  unfold rows_for_path at h ⊢
  cases hl : path.getLast? with
  | none =>
    rw [hl] at h
    dsimp only at h ⊢
    injection h with h2
    subst h2
    exact ⟨[], rfl, List.Sublist.refl [], rfl⟩
  | some leaf =>
    rw [hl] at h
    dsimp only at h ⊢
    rw [dictGet_filter]
    by_cases hkeep : keep leaf.1
    · rw [if_pos hkeep]
      exact ⟨rows, h, List.Sublist.refl rows, rfl⟩
    · rw [if_neg hkeep]
      cases hm : mapExcept subject_row ((dictGet m leaf.1).getD []) with
      | error e => rw [hm] at h; cases h
      | ok srows =>
        rw [hm] at h
        injection h with h2
        subst h2
        refine ⟨_, rfl, ?_, ?_⟩
        · simpa using List.sublist_append_left _ srows
        · simp only [List.filter_append]
          rw [show List.filter (fun r => r.2.2 != 99) srows = [] from
              List.filter_eq_nil_iff.mpr (fun r hr => by
                have := subject_rows_level hm r hr
                simp [this])]
          simp

theorem build_rows_level_ne_zero (paths : List (List PathStep))
    (m : List (Int × List Subject)) :
    ∀ rows, build_rows paths m = .ok rows → ∀ r ∈ rows, r.2.2 ≠ 0 := by
  induction paths with
  | nil =>
    intro rows h
    rw [build_rows_nil] at h
    injection h with h2
    subst h2
    simp
  | cons p ps ih =>
    intro rows h
    rw [build_rows_cons] at h
    cases h1 : rows_for_path m p with
    | error e => rw [h1] at h; cases h
    | ok r1 =>
      rw [h1] at h
      dsimp only at h
      cases h2 : build_rows ps m with
      | error e => rw [h2] at h; cases h
      | ok rest =>
        rw [h2] at h
        injection h with h3
        subst h3
        intro r hr
        rcases List.mem_append.mp hr with hr1 | hr2
        · exact rows_for_path_level_ne_zero h1 r hr1
        · exact ih rest h2 r hr2

theorem build_rows_filter_keep (paths : List (List PathStep))
    (m : List (Int × List Subject)) (keep : Int → Bool) :
    ∀ rows, build_rows paths m = .ok rows →
      ∃ rows', build_rows paths (m.filter (fun kv => keep kv.1)) = .ok rows'
        ∧ rows'.Sublist rows
        ∧ rows'.filter (fun r => r.2.2 != 99) = rows.filter (fun r => r.2.2 != 99) := by
  induction paths with
  | nil =>
    intro rows h
    rw [build_rows_nil] at h
    injection h with h2
    subst h2
    exact ⟨[], rfl, List.Sublist.refl [], rfl⟩
  | cons p ps ih =>
    intro rows h
    rw [build_rows_cons] at h
    cases h1 : rows_for_path m p with
    | error e => rw [h1] at h; cases h
    | ok r1 =>
      rw [h1] at h
      dsimp only at h
      cases h2 : build_rows ps m with
      | error e => rw [h2] at h; cases h
      | ok rest =>
        rw [h2] at h
        injection h with h3
        subst h3
        obtain ⟨r1', hr1', hsub1, hfil1⟩ := rows_for_path_filter_keep keep h1
        obtain ⟨rest', hrest', hsub2, hfil2⟩ := ih rest h2
        refine ⟨r1' ++ rest', ?_, hsub1.append hsub2, ?_⟩
        · rw [build_rows_cons, hr1']
          dsimp only
          rw [hrest']
        · rw [List.filter_append, List.filter_append, hfil1, hfil2]

/-- C5.  `build_rows` never emits a row whose level is 0 (the depth-0 root
is never exported), and removing any set of leaf keys from the subject map
— in particular all error-carrying LeafRecords, which `subjects_map` drops —
never makes `build_rows` raise: it only suppresses those leaves' level-99
Subject rows, while every row of level ≠ 99 (the ancestor and leaf rows) is
still emitted unchanged. -/
theorem build_rows_claim (paths : List (List PathStep))
    (m : List (Int × List Subject)) (keep : Int → Bool) :
    (∀ rows, build_rows paths m = .ok rows → ∀ r ∈ rows, r.2.2 ≠ 0)
    ∧ (∀ rows, build_rows paths m = .ok rows →
        ∃ rows', build_rows paths (m.filter (fun kv => keep kv.1)) = .ok rows'
          ∧ rows'.Sublist rows
          ∧ rows'.filter (fun r => r.2.2 != 99) = rows.filter (fun r => r.2.2 != 99)) :=
  ⟨build_rows_level_ne_zero paths m, build_rows_filter_keep paths m keep⟩

/-- Witness for C5: one root→leaf path with one fetched subject; dropping
every key suppresses exactly the subject row. -/
theorem build_rows_claim_witness :
    build_rows [[((1 : Int), "Root", (0 : Int)), ((2 : Int), "Leaf", (1 : Int))]]
        [((2 : Int), [(⟨Json.num 9, Json.str "Foo"⟩ : Subject)])]
      = .ok [((2 : Int), "Leaf", (1 : Int)), ((9 : Int), "Foo", (99 : Int))]
    ∧ (∀ r ∈ [((2 : Int), "Leaf", (1 : Int)), ((9 : Int), "Foo", (99 : Int))], r.2.2 ≠ 0)
    ∧ ∃ rows', build_rows [[((1 : Int), "Root", (0 : Int)), ((2 : Int), "Leaf", (1 : Int))]]
          ([((2 : Int), [(⟨Json.num 9, Json.str "Foo"⟩ : Subject)])].filter
            (fun kv => (fun _ => false) kv.1))
        = .ok rows'
      ∧ rows'.Sublist [((2 : Int), "Leaf", (1 : Int)), ((9 : Int), "Foo", (99 : Int))]
      ∧ rows'.filter (fun r => r.2.2 != 99)
        = [((2 : Int), "Leaf", (1 : Int)), ((9 : Int), "Foo", (99 : Int))].filter
            (fun r => r.2.2 != 99) := by
  have h := build_rows_claim [[((1 : Int), "Root", (0 : Int)), ((2 : Int), "Leaf", (1 : Int))]]
    [((2 : Int), [(⟨Json.num 9, Json.str "Foo"⟩ : Subject)])] (fun _ => false)
  exact ⟨rfl, h.1 _ rfl, h.2 _ rfl⟩

/-! ## C8: success counting and the subjects map -/

theorem dictGet_isSome_iff (m : List (Int × List Subject)) (k : Int) :
    (dictGet m k).isSome = true ↔ ∃ kv ∈ m, kv.1 = k := by
  induction m with
  | nil => simp [dictGet]
  | cons kv rest ih =>
    rw [dictGet_cons]
    by_cases hkk : kv.1 = k
    · rw [if_pos hkk]
      simp only [Option.isSome_some, true_iff]
      exact ⟨kv, List.mem_cons_self kv rest, hkk⟩
    · rw [if_neg hkk, ih]
      constructor
      · rintro ⟨kv', h1, h2⟩
        exact ⟨kv', List.mem_cons_of_mem _ h1, h2⟩
      · rintro ⟨kv', h1, h2⟩
        rcases List.mem_cons.mp h1 with rfl | h1'
        · exact absurd h2 hkk
        · exact ⟨kv', h1', h2⟩

theorem dictGet_dictSet_isSome (res : List (Int × List Subject)) (k0 : Int)
    (v : List Subject) (k : Int) :
    (dictGet (dictSet res k0 v) k).isSome = true
      ↔ k = k0 ∨ (dictGet res k).isSome = true := by
  rw [dictGet_isSome_iff, dictGet_isSome_iff]
  unfold dictSet
  by_cases hany : res.any (fun kv => kv.1 == k0) = true
  · rw [if_pos hany]
    constructor
    · rintro ⟨kv, hkv, hk⟩
      obtain ⟨kv0, hkv0, heq⟩ := List.mem_map.mp hkv
      by_cases h0 : kv0.1 = k0
      · rw [if_pos (beq_iff_eq.mpr h0)] at heq
        rw [← heq] at hk
        exact Or.inl (by rw [← hk])
      · rw [if_neg (by simpa using h0)] at heq
        rw [heq] at hkv0
        exact Or.inr ⟨kv, hkv0, hk⟩
    · rintro (rfl | ⟨kv, hkv, hk⟩)
      · obtain ⟨kv0, hkv0, h0⟩ := List.any_eq_true.mp hany
        exact ⟨(k, v), List.mem_map.mpr ⟨kv0, hkv0, by rw [if_pos h0]⟩, rfl⟩
      · by_cases h0 : kv.1 = k0
        · refine ⟨(k0, v), List.mem_map.mpr ⟨kv, hkv, by rw [if_pos (beq_iff_eq.mpr h0)]⟩, ?_⟩
          rw [← h0, hk]
        · exact ⟨kv, List.mem_map.mpr ⟨kv, hkv, by rw [if_neg (by simpa using h0)]⟩, hk⟩
  · rw [if_neg hany]
    constructor
    · rintro ⟨kv, hkv, hk⟩
      rcases List.mem_append.mp hkv with h1 | h1
      · exact Or.inr ⟨kv, h1, hk⟩
      · simp at h1
        rw [h1] at hk
        exact Or.inl hk.symm
    · rintro (rfl | ⟨kv, hkv, hk⟩)
      · exact ⟨(k, v), List.mem_append.mpr (Or.inr (by simp)), rfl⟩
      · exact ⟨kv, List.mem_append.mpr (Or.inl hkv), hk⟩

theorem subjects_map_key_aux (items : List LeafRecord)
    (acc : List (Int × List Subject)) (k : Int) :
    (dictGet (items.foldl (fun res r =>
        if errFalsy r.error then dictSet res r.leaf_id r.subjects else res) acc) k).isSome
        = true
      ↔ (dictGet acc k).isSome = true
        ∨ ∃ r ∈ items, errFalsy r.error = true ∧ r.leaf_id = k := by
  induction items generalizing acc with
  | nil => simp
  | cons r0 t ih =>
    rw [List.foldl_cons]
    by_cases he : errFalsy r0.error = true
    · rw [if_pos he, ih, dictGet_dictSet_isSome]
      simp only [List.mem_cons]
      constructor
      · rintro ((rfl | hA) | ⟨r, hr, hP⟩)
        · exact Or.inr ⟨r0, Or.inl rfl, he, rfl⟩
        · exact Or.inl hA
        · exact Or.inr ⟨r, Or.inr hr, hP⟩
      · rintro (hA | ⟨r, rfl | hr, hre, hrk⟩)
        · exact Or.inl (Or.inr hA)
        · exact Or.inl (Or.inl hrk.symm)
        · exact Or.inr ⟨r, hr, hre, hrk⟩
    · rw [if_neg he, ih]
      simp only [List.mem_cons]
      constructor
      · rintro (hA | ⟨r, hr, hP⟩)
        · exact Or.inl hA
        · exact Or.inr ⟨r, Or.inr hr, hP⟩
      · rintro (hA | ⟨r, rfl | hr, hre, hrk⟩)
        · exact Or.inl hA
        · exact absurd hre he
        · exact Or.inr ⟨r, hr, hre, hrk⟩

/-- C8 counterexample.  A LeafRecord with `error = ""` (a non-null error
message — `str(e)` can be empty) is counted as succeeded by `leaves_stats`
and retained by `subjects_map`, because both test Python truthiness
(`not r.get("error")`), not `error is None`. -/
theorem leaves_stats_error_empty_counterexample :
    (⟨7, "L", "u", [], some ""⟩ : LeafRecord).error ≠ none
    ∧ leaves_stats [⟨7, "L", "u", [], some ""⟩] = (1, 1)
    ∧ dictGet (subjects_map [⟨7, "L", "u", [], some ""⟩]) 7 = some [] := by
  refine ⟨by simp, rfl, rfl⟩

/-- C8 as amended.  A record is counted as succeeded by `leaves_stats`, and
its key retained by `subjects_map`, exactly when its `error` field is falsy:
absent/null or the empty string. -/
theorem leaves_stats_subjects_map_falsy (records : List LeafRecord) (k : Int) :
    (∀ e : Option String, errFalsy e = true ↔ (e = none ∨ e = some ""))
    ∧ leaves_stats records
      = (records.length, (records.filter (fun r => errFalsy r.error)).length)
    ∧ ((dictGet (subjects_map records) k).isSome = true
        ↔ ∃ r ∈ records, errFalsy r.error = true ∧ r.leaf_id = k) := by
  refine ⟨?_, rfl, ?_⟩
  · intro e
    cases e with
    | none => simp [errFalsy]
    | some s => simp [errFalsy]
  · unfold subjects_map
    rw [subjects_map_key_aux]
    simp [dictGet]

/-- Witness for the amended C8. -/
theorem leaves_stats_subjects_map_falsy_witness :
    errFalsy (some "") = true ∧ (some "" = (none : Option String) ∨ some "" = some "")
    ∧ (dictGet (subjects_map [(⟨7, "L", "u", [], some ""⟩ : LeafRecord)]) 7).isSome = true := by
  have h := leaves_stats_subjects_map_falsy [(⟨7, "L", "u", [], some ""⟩ : LeafRecord)] 7
  refine ⟨(h.1 (some "")).mpr (Or.inr rfl), Or.inr rfl, ?_⟩
  exact (h.2.2).mpr ⟨⟨7, "L", "u", [], some ""⟩, by simp, rfl, rfl⟩
